import Mathlib

/-
Shallow embedding of the task / swim-lane state store of the kanban-board
repository (src/src/context/TaskContext.tsx, types in src/src/types/task.ts).

JavaScript objects used as string-keyed dictionaries are modelled as
functions `String → Option _`; `delete obj[k]` sets the key to `none`,
spread-update sets it pointwise.  Nondeterministic inputs of the code
(uuidv4 identifiers, `new Date().toISOString()` timestamps, the random
lane color) are passed as explicit parameters.
-/

namespace Kanban

/-- Task record, mirroring the `Task` interface in `src/types/task.ts`. -/
structure Task where
  id : String
  title : String
  description : String
  priority : Nat
  desiredDate : String
  actualDeliveryDate : Option String
  label : String
  status : String
  assignee : Option String
  creator : Option String
  createdAt : String
  updatedAt : String
deriving Repr, DecidableEq

/-- Swim lane record, mirroring the `SwimLane` interface. -/
structure SwimLane where
  id : String
  name : String
  color : String
deriving Repr, DecidableEq

/-- The argument of `addTask`: `Omit<Task, 'id' | 'createdAt' | 'updatedAt'>`. -/
structure TaskData where
  title : String
  description : String
  priority : Nat
  desiredDate : String
  actualDeliveryDate : Option String
  label : String
  status : String
  assignee : Option String
  creator : Option String
deriving Repr, DecidableEq

/-- The argument of `updateTask`: `Partial<Task>` — every field optional.
Fields that are already `Option` in `Task` get `Option (Option _)` so that
an explicitly supplied `undefined` is distinguishable from an absent key. -/
structure TaskPatch where
  id : Option String := none
  title : Option String := none
  description : Option String := none
  priority : Option Nat := none
  desiredDate : Option String := none
  actualDeliveryDate : Option (Option String) := none
  label : Option String := none
  status : Option String := none
  assignee : Option (Option String) := none
  creator : Option (Option String) := none
  createdAt : Option String := none
  updatedAt : Option String := none
deriving Repr, DecidableEq

/-- The argument of `updateSwimLane`: `Partial<SwimLane>`. -/
structure LanePatch where
  id : Option String := none
  name : Option String := none
  color : Option String := none
deriving Repr, DecidableEq

/-- The provider state: `tasks`, `tasksByStatus`, `swimLanes`. -/
structure Store where
  tasks : String → Option Task
  tasksByStatus : String → Option (List String)
  swimLanes : List SwimLane

/-- Pointwise key update, the effect of `{ ...obj, [k]: v }`. -/
def mapSet (m : String → Option α) (k : String) (v : α) : String → Option α :=
  fun x => if x = k then some v else m x

/-- Pointwise key removal, the effect of `delete obj[k]`. -/
def mapDel (m : String → Option α) (k : String) : String → Option α :=
  fun x => if x = k then none else m x

/-- The list a lane key currently holds, `prev[k] || []`. -/
def entryOf (m : String → Option (List String)) (k : String) : List String :=
  (m k).getD []

/-- Duplicate removal keeping first occurrences, the effect of
`Array.from(new Set(xs))` (JS `Set` iterates in insertion order). -/
def jsDedupAux : List String → List String → List String
  | [], _ => []
  | x :: xs, seen => if x ∈ seen then jsDedupAux xs seen else x :: jsDedupAux xs (x :: seen)

/-- `Array.from(new Set(l))`. -/
def jsDedup (l : List String) : List String := jsDedupAux l []

/-- The spread `{ ...task, ...taskData, updatedAt: now }` in `updateTask`:
fields present in the patch override, then `updatedAt` is forced to `now`. -/
def mergeTask (t : Task) (p : TaskPatch) (now : String) : Task :=
  { id := p.id.getD t.id
  , title := p.title.getD t.title
  , description := p.description.getD t.description
  , priority := p.priority.getD t.priority
  , desiredDate := p.desiredDate.getD t.desiredDate
  , actualDeliveryDate := p.actualDeliveryDate.getD t.actualDeliveryDate
  , label := p.label.getD t.label
  , status := p.status.getD t.status
  , assignee := p.assignee.getD t.assignee
  , creator := p.creator.getD t.creator
  , createdAt := p.createdAt.getD t.createdAt
  , updatedAt := now }

/-- The spread `{ ...lane, ...updates }` in `updateSwimLane`. -/
def mergeLane (l : SwimLane) (p : LanePatch) : SwimLane :=
  { id := p.id.getD l.id
  , name := p.name.getD l.name
  , color := p.color.getD l.color }

/-- The record built by `addTask`: `{ id, ...taskData, createdAt: now, updatedAt: now }`. -/
def mkTask (td : TaskData) (id now : String) : Task :=
  { id := id
  , title := td.title
  , description := td.description
  , priority := td.priority
  , desiredDate := td.desiredDate
  , actualDeliveryDate := td.actualDeliveryDate
  , label := td.label
  , status := td.status
  , assignee := td.assignee
  , creator := td.creator
  , createdAt := now
  , updatedAt := now }

/-- `addTask` (TaskContext.tsx lines 94-121): insert the new record under the
generated identifier and append the identifier to its status entry. -/
def addTask (td : TaskData) (id now : String) (s : Store) : Store :=
  { s with
    tasks := mapSet s.tasks id (mkTask td id now)
  , tasksByStatus := mapSet s.tasksByStatus td.status (entryOf s.tasksByStatus td.status ++ [id]) }

/-- `updateTask` (lines 124-159): merge the patch into the existing record and
refresh `updatedAt`; both branches of the code leave `tasksByStatus` alone. -/
def updateTask (id : String) (p : TaskPatch) (now : String) (s : Store) : Store :=
  match s.tasks id with
  | none => s
  | some t => { s with tasks := mapSet s.tasks id (mergeTask t p now) }

/-- `deleteTask` (lines 162-181): `const status = tasks[id]?.status; if (!status) return;`
— the guard also fires on an empty-string status, since `""` is falsy. -/
def deleteTask (id : String) (s : Store) : Store :=
  match s.tasks id with
  | none => s
  | some t =>
    if t.status = "" then s
    else
      { s with
        tasks := mapDel s.tasks id
      , tasksByStatus := mapSet s.tasksByStatus t.status
          ((entryOf s.tasksByStatus t.status).filter (fun x => x ≠ id)) }

/-- `moveTask` (lines 184-222): no-op when the task is missing or already in
the target lane (the inner `setTasksByStatus` is never reached then);
otherwise rewrite the record's status, filter the identifier out of the old
entry and append it (deduplicated) to the new entry, the new entry written last. -/
def moveTask (taskId newStatus now : String) (s : Store) : Store :=
  match s.tasks taskId with
  | none => s
  | some t =>
    if t.status = newStatus then s
    else
      let oldTasks := (entryOf s.tasksByStatus t.status).filter (fun x => x ≠ taskId)
      let newTasks := jsDedup (entryOf s.tasksByStatus newStatus ++ [taskId])
      { s with
        tasks := mapSet s.tasks taskId { t with status := newStatus, updatedAt := now }
      , tasksByStatus := mapSet (mapSet s.tasksByStatus t.status oldTasks) newStatus newTasks }

/-- `reorderTasks` (lines 225-230): wholesale replacement of one entry. -/
def reorderTasks (status : String) (newOrder : List String) (s : Store) : Store :=
  { s with tasksByStatus := mapSet s.tasksByStatus status newOrder }

/-- `addSwimLane` (lines 233-251): append the lane, initialize an empty entry. -/
def addSwimLane (name id color : String) (s : Store) : Store :=
  { s with
    swimLanes := s.swimLanes ++ [⟨id, name, color⟩]
  , tasksByStatus := mapSet s.tasksByStatus id [] }

/-- `updateSwimLane` (lines 253-259): merge the patch into every matching lane. -/
def updateSwimLane (id : String) (p : LanePatch) (s : Store) : Store :=
  { s with swimLanes := s.swimLanes.map (fun l => if l.id = id then mergeLane l p else l) }

/-- `deleteSwimLane` (lines 261-317): when the lane holds tasks and another
lane exists, each contained task is routed through `updateTask` with the first
remaining lane as status and the identifiers are appended to that lane's
entry; with no other lane the contained tasks are deleted outright; in every
case the lane's entry and the lane itself are removed. -/
def deleteSwimLane (id now : String) (s : Store) : Store :=
  let tasksInLane := entryOf s.tasksByStatus id
  let s1 :=
    if tasksInLane = [] then
      { s with tasksByStatus := mapDel s.tasksByStatus id }
    else
      match s.swimLanes.filter (fun lane => lane.id ≠ id) with
      | [] =>
        { s with
          tasks := fun k => if k ∈ tasksInLane then none else s.tasks k
        , tasksByStatus := mapDel s.tasksByStatus id }
      | target :: _ =>
        let s2 := tasksInLane.foldl
          (fun st tid => updateTask tid { status := some target.id } now st) s
        { s2 with
          tasksByStatus := mapSet (mapDel s.tasksByStatus id) target.id
            (entryOf s.tasksByStatus target.id ++ tasksInLane) }
  { s1 with swimLanes := s.swimLanes.filter (fun lane => lane.id ≠ id) }

/-- The lane dictionary built by the `reduce` in `reorderSwimLanes`
(lines 319-328); a later lane with the same identifier overwrites an earlier one. -/
def laneMapOf (lanes : List SwimLane) : String → Option SwimLane :=
  lanes.foldl (fun acc lane => fun k => if k = lane.id then some lane else acc k)
    (fun _ => none)

/-- `reorderSwimLanes`: `newOrder.map(id => laneMap[id]).filter(Boolean)`. -/
def reorderSwimLanes (newOrder : List String) (s : Store) : Store :=
  { s with swimLanes := newOrder.filterMap (laneMapOf s.swimLanes) }

/-- The default lanes from `src/types/task.ts`. -/
def defaultSwimLanes : List SwimLane :=
  [ ⟨"todo", "To-do", "blue"⟩
  , ⟨"planning", "Planning", "purple"⟩
  , ⟨"in-progress", "In-progress", "amber"⟩
  , ⟨"testing", "Testing", "cyan"⟩
  , ⟨"done", "Done", "green"⟩ ]

/-- The provider state right after startup with empty local storage: no tasks,
an empty entry for every default lane (seeded by the effect at lines 34-47),
the default lane list. -/
def initialStore : Store :=
  { tasks := fun _ => none
  , tasksByStatus := fun k => if k ∈ defaultSwimLanes.map SwimLane.id then some [] else none
  , swimLanes := defaultSwimLanes }

@[simp] theorem mapSet_same (m : String → Option α) (k : String) (v : α) :
    mapSet m k v k = some v := by
  simp [mapSet]

theorem mapSet_ne (m : String → Option α) (k : String) (v : α) (x : String) (h : x ≠ k) :
    mapSet m k v x = m x := by
  simp [mapSet, h]

@[simp] theorem mapDel_same (m : String → Option α) (k : String) :
    mapDel m k k = none := by
  simp [mapDel]

theorem mapDel_ne (m : String → Option α) (k x : String) (h : x ≠ k) :
    mapDel m k x = m x := by
  simp [mapDel, h]

/-- A concrete task used in witnesses and counterexamples. -/
def sampleTask : Task :=
  { id := "a", title := "Fix bug", description := "d", priority := 2
  , desiredDate := "2024-01-01", actualDeliveryDate := none, label := "bug"
  , status := "todo", assignee := none, creator := none
  , createdAt := "t0", updatedAt := "t0" }

/-- A concrete consistent store: one task `"a"` in lane `"todo"`, two lanes. -/
def storeA : Store :=
  { tasks := fun k => if k = "a" then some sampleTask else none
  , tasksByStatus := fun k =>
      if k = "todo" then some ["a"] else if k = "done" then some [] else none
  , swimLanes := [⟨"todo", "To-do", "blue"⟩, ⟨"done", "Done", "green"⟩] }

/-- C4: `updateTask` leaves the `tasksByStatus` index (and the lane list)
completely unchanged for every identifier and every patch — even one whose
`status` field is set — and modifies only the task map, merging the patch
into the existing record with a refreshed `updatedAt` (no-op when the
identifier is unknown). -/
theorem updateTask_index_frame (s : Store) (id : String) (p : TaskPatch) (now : String) :
    (updateTask id p now s).tasksByStatus = s.tasksByStatus
    ∧ (updateTask id p now s).swimLanes = s.swimLanes
    ∧ (∀ t, s.tasks id = some t →
        (updateTask id p now s).tasks = mapSet s.tasks id (mergeTask t p now))
    ∧ (s.tasks id = none → updateTask id p now s = s) := by
  refine ⟨?_, ?_, ?_, ?_⟩
  · cases h : s.tasks id <;> simp [updateTask, h]
  · cases h : s.tasks id <;> simp [updateTask, h]
  · intro t ht
    simp [updateTask, ht]
  · intro h
    simp [updateTask, h]

/-- Witness for C4: a status-bearing patch at a concrete store leaves the
index unchanged, and a missing identifier is a no-op. -/
theorem updateTask_index_frame_witness :
    (updateTask "a" { status := some "done" } "t1" storeA).tasksByStatus = storeA.tasksByStatus
    ∧ (updateTask "a" { status := some "done" } "t1" storeA).tasks
        = mapSet storeA.tasks "a" (mergeTask sampleTask { status := some "done" } "t1")
    ∧ updateTask "zz" { status := some "done" } "t1" storeA = storeA :=
  ⟨(updateTask_index_frame storeA "a" { status := some "done" } "t1").1,
   (updateTask_index_frame storeA "a" { status := some "done" } "t1").2.2.1 sampleTask rfl,
   (updateTask_index_frame storeA "zz" { status := some "done" } "t1").2.2.2 rfl⟩

/-- C7: `reorderTasks` sets lane `status`'s entry to exactly `newOrder`
whatever its prior contents, and leaves every other entry, the task map and
the lane list unchanged. -/
theorem reorderTasks_behavior (s : Store) (status : String) (newOrder : List String) :
    (reorderTasks status newOrder s).tasksByStatus status = some newOrder
    ∧ (∀ k, k ≠ status → (reorderTasks status newOrder s).tasksByStatus k = s.tasksByStatus k)
    ∧ (reorderTasks status newOrder s).tasks = s.tasks
    ∧ (reorderTasks status newOrder s).swimLanes = s.swimLanes := by
  refine ⟨by simp [reorderTasks], fun k hk => by simp [reorderTasks, mapSet, hk], rfl, rfl⟩

/-- Witness for C7: replacing lane `"todo"`'s entry by a non-permutation at a
concrete store, every other entry untouched. -/
theorem reorderTasks_behavior_witness :
    (reorderTasks "todo" ["x", "y"] storeA).tasksByStatus "todo" = some ["x", "y"]
    ∧ (reorderTasks "todo" ["x", "y"] storeA).tasksByStatus "done"
        = storeA.tasksByStatus "done" :=
  ⟨(reorderTasks_behavior storeA "todo" ["x", "y"]).1,
   (reorderTasks_behavior storeA "todo" ["x", "y"]).2.1 "done" (by decide)⟩

/-- C8: on an identifier missing from the task map, `updateTask`,
`deleteTask` and `moveTask` each return the store unchanged. -/
theorem missing_id_noop (s : Store) (id : String) (p : TaskPatch) (now newStatus : String)
    (h : s.tasks id = none) :
    updateTask id p now s = s ∧ deleteTask id s = s ∧ moveTask id newStatus now s = s := by
  refine ⟨?_, ?_, ?_⟩ <;> simp [updateTask, deleteTask, moveTask, h]

/-- Witness for C8 at a concrete store and the unknown identifier `"zz"`. -/
theorem missing_id_noop_witness :
    updateTask "zz" {} "t1" storeA = storeA ∧ deleteTask "zz" storeA = storeA
    ∧ moveTask "zz" "done" "t1" storeA = storeA :=
  missing_id_noop storeA "zz" {} "t1" "done" rfl

/-- A concrete `addTask` argument with status `"todo"`. -/
def sampleTaskData : TaskData :=
  { title := "Fix bug", description := "d", priority := 2, desiredDate := "2024-01-01"
  , actualDeliveryDate := none, label := "bug", status := "todo"
  , assignee := none, creator := none }

/-- C2: `moveTask` is a total no-op when the task is missing or already in the
target lane; otherwise it rewrites the record's status and `updatedAt`,
filters the identifier out of the old entry, appends it (deduplicated) to the
new entry and touches no other entry; concretely, adding a `"todo"` task to
the startup store and moving it to `"done"` empties `"todo"`, puts exactly the
new identifier in `"done"`, and the record's status reads `"done"`. -/
theorem moveTask_behavior (s : Store) (taskId newStatus now : String) :
    (s.tasks taskId = none → moveTask taskId newStatus now s = s)
    ∧ (∀ t, s.tasks taskId = some t → t.status = newStatus →
        moveTask taskId newStatus now s = s)
    ∧ (∀ t, s.tasks taskId = some t → t.status ≠ newStatus →
        (moveTask taskId newStatus now s).tasks
            = mapSet s.tasks taskId { t with status := newStatus, updatedAt := now }
        ∧ (moveTask taskId newStatus now s).tasksByStatus newStatus
            = some (jsDedup (entryOf s.tasksByStatus newStatus ++ [taskId]))
        ∧ (moveTask taskId newStatus now s).tasksByStatus t.status
            = some ((entryOf s.tasksByStatus t.status).filter (fun x => x ≠ taskId))
        ∧ (∀ k, k ≠ newStatus → k ≠ t.status →
            (moveTask taskId newStatus now s).tasksByStatus k = s.tasksByStatus k))
    ∧ ((moveTask "m1" "done" "t1" (addTask sampleTaskData "m1" "t0" initialStore)).tasksByStatus
          "todo" = some []
        ∧ (moveTask "m1" "done" "t1" (addTask sampleTaskData "m1" "t0" initialStore)).tasksByStatus
            "done" = some ["m1"]
        ∧ ((moveTask "m1" "done" "t1" (addTask sampleTaskData "m1" "t0" initialStore)).tasks
            "m1").map Task.status = some "done") := by
  refine ⟨fun h => by simp [moveTask, h], fun t ht hst => by simp [moveTask, ht, hst], ?_, ?_⟩
  · intro t ht hne
    refine ⟨?_, ?_, ?_, ?_⟩
    · simp [moveTask, ht, hne]
    · simp [moveTask, ht, hne, mapSet]
    · simp [moveTask, ht, hne, mapSet, Ne.symm hne]
    · intro k hk1 hk2
      simp [moveTask, ht, hne, mapSet, hk1, hk2]
  · exact ⟨by decide, by decide, by decide⟩

/-- Witness for C2 at the concrete store `storeA`, moving task `"a"` from
`"todo"` to `"done"`, plus the no-op case on a task already in its lane. -/
theorem moveTask_behavior_witness :
    (moveTask "a" "done" "t1" storeA).tasksByStatus "done"
        = some (jsDedup (entryOf storeA.tasksByStatus "done" ++ ["a"]))
    ∧ (moveTask "a" "done" "t1" storeA).tasksByStatus "todo"
        = some ((entryOf storeA.tasksByStatus "todo").filter (fun x => x ≠ "a"))
    ∧ moveTask "a" "todo" "t1" storeA = storeA :=
  ⟨((moveTask_behavior storeA "a" "done" "t1").2.2.1 sampleTask rfl (by decide)).2.1,
   ((moveTask_behavior storeA "a" "done" "t1").2.2.1 sampleTask rfl (by decide)).2.2.1,
   (moveTask_behavior storeA "a" "todo" "t1").2.1 sampleTask rfl rfl⟩

theorem getD_getD (o : Option α) (a : α) : o.getD (o.getD a) = o.getD a := by
  cases o <;> rfl

theorem mergeTask_idem (t : Task) (p : TaskPatch) (now : String) :
    mergeTask (mergeTask t p now) p now = mergeTask t p now := by
  simp [mergeTask, getD_getD]

theorem mergeTask_status_only (t : Task) (st now : String) :
    mergeTask t { status := some st } now = { t with status := st, updatedAt := now } := by
  simp [mergeTask]

theorem foldUpdate_tasksByStatus (L : List String) (p : TaskPatch) (now : String) (s : Store) :
    (L.foldl (fun st tid => updateTask tid p now st) s).tasksByStatus = s.tasksByStatus
    ∧ (L.foldl (fun st tid => updateTask tid p now st) s).swimLanes = s.swimLanes := by
  induction L generalizing s with
  | nil => exact ⟨rfl, rfl⟩
  | cons x xs ih =>
    have h1 := ih (updateTask x p now s)
    rw [List.foldl_cons]
    refine ⟨h1.1.trans ?_, h1.2.trans ?_⟩ <;> cases h : s.tasks x <;> simp [updateTask, h]

theorem foldUpdate_tasks (L : List String) (p : TaskPatch) (now : String) (s : Store)
    (k : String) :
    (L.foldl (fun st tid => updateTask tid p now st) s).tasks k
      = if k ∈ L then (s.tasks k).map (fun t => mergeTask t p now) else s.tasks k := by
  induction L generalizing s with
  | nil => simp
  | cons x xs ih =>
    rw [List.foldl_cons, ih]
    by_cases hkx : k = x
    · subst hkx
      cases h : s.tasks k with
      | none => by_cases hk : k ∈ xs <;> simp [updateTask, h, hk]
      | some t =>
        by_cases hk : k ∈ xs <;>
          simp [updateTask, h, hk, mapSet, mergeTask_idem]
    · simp only [List.mem_cons, hkx, false_or]
      cases h : s.tasks x with
      | none => simp [updateTask, h]
      | some t => simp [updateTask, h, mapSet_ne _ _ _ _ hkx]

/-- C6: `deleteSwimLane` on a lane holding the identifiers `l`: the lane and
its entry always disappear; when another lane remains, each contained task's
record is restatused to the first remaining lane and the identifiers are
appended to that lane's entry; when no lane remains, the contained tasks are
deleted from the task map. -/
theorem deleteSwimLane_behavior (s : Store) (id now : String) (l : List String)
    (hl : s.tasksByStatus id = some l) (hne : l ≠ []) :
    ((deleteSwimLane id now s).swimLanes = s.swimLanes.filter (fun lane => lane.id ≠ id))
    ∧ ((deleteSwimLane id now s).tasksByStatus id = none)
    ∧ (∀ target rest, s.swimLanes.filter (fun lane => lane.id ≠ id) = target :: rest →
        ((deleteSwimLane id now s).tasksByStatus target.id
            = some (entryOf s.tasksByStatus target.id ++ l))
        ∧ (∀ tid ∈ l, ∀ t, s.tasks tid = some t →
            (deleteSwimLane id now s).tasks tid
              = some { t with status := target.id, updatedAt := now }))
    ∧ (s.swimLanes.filter (fun lane => lane.id ≠ id) = [] →
        ∀ tid ∈ l, (deleteSwimLane id now s).tasks tid = none) := by
  have hentry : entryOf s.tasksByStatus id = l := by simp [entryOf, hl]
  refine ⟨?_, ?_, ?_, ?_⟩
  · simp [deleteSwimLane]
  · rw [deleteSwimLane]
    simp only [hentry]
    rw [if_neg hne]
    cases hf : s.swimLanes.filter (fun lane => lane.id ≠ id) with
    | nil => simp
    | cons target rest =>
      have htne : target.id ≠ id := by
        have : target ∈ s.swimLanes.filter (fun lane => lane.id ≠ id) := by
          rw [hf]; exact List.mem_cons_self _ _
        simpa using (List.mem_filter.mp this).2
      simp [mapSet_ne _ _ _ _ (Ne.symm htne)]
  · intro target rest hf
    have htne : target.id ≠ id := by
      have : target ∈ s.swimLanes.filter (fun lane => lane.id ≠ id) := by
        rw [hf]; exact List.mem_cons_self _ _
      simpa using (List.mem_filter.mp this).2
    constructor
    · rw [deleteSwimLane]
      simp only [hentry]
      rw [if_neg hne, hf]
      simp
    · intro tid htid t ht
      rw [deleteSwimLane]
      simp only [hentry]
      rw [if_neg hne, hf]
      simp only
      rw [foldUpdate_tasks]
      simp [htid, ht, mergeTask_status_only]
  · intro hf tid htid
    rw [deleteSwimLane]
    simp only [hentry]
    rw [if_neg hne, hf]
    simp [htid]

/-- Witness for C6: deleting lane `"todo"` of `storeA` moves task `"a"` to
lane `"done"`, appends it to that entry, and removes the `"todo"` entry. -/
theorem deleteSwimLane_behavior_witness :
    (deleteSwimLane "todo" "t1" storeA).tasksByStatus "done"
        = some (entryOf storeA.tasksByStatus "done" ++ ["a"])
    ∧ (deleteSwimLane "todo" "t1" storeA).tasksByStatus "todo" = none
    ∧ (deleteSwimLane "todo" "t1" storeA).tasks "a"
        = some { sampleTask with status := "done", updatedAt := "t1" } := by
  have h := deleteSwimLane_behavior storeA "todo" "t1" ["a"] rfl (by decide)
  have h3 := h.2.2.1 ⟨"done", "Done", "green"⟩ [] (by decide)
  exact ⟨h3.1, h.2.1, h3.2 "a" (by decide) sampleTask rfl⟩

/-- The first lane record carrying a given identifier. -/
def findLane (lanes : List SwimLane) (k : String) : Option SwimLane :=
  lanes.find? (fun l => l.id = k)

theorem laneMapOf_aux_not_mem (lanes : List SwimLane) (acc : String → Option SwimLane)
    (k : String) (h : ∀ lane ∈ lanes, lane.id ≠ k) :
    lanes.foldl (fun a lane => fun x => if x = lane.id then some lane else a x) acc k = acc k := by
  induction lanes generalizing acc with
  | nil => rfl
  | cons l ls ih =>
    rw [List.foldl_cons, ih _ (fun lane hm => h lane (List.mem_cons_of_mem _ hm))]
    have : l.id ≠ k := h l (List.mem_cons_self _ _)
    simp [this.symm]

theorem laneMapOf_aux_mem (lanes : List SwimLane) (acc : String → Option SwimLane)
    (lane : SwimLane) (hn : (lanes.map SwimLane.id).Nodup) (hm : lane ∈ lanes) :
    lanes.foldl (fun a ln => fun x => if x = ln.id then some ln else a x) acc lane.id
      = some lane := by
  induction lanes generalizing acc with
  | nil => cases hm
  | cons l ls ih =>
    rw [List.foldl_cons]
    rcases List.mem_cons.mp hm with rfl | hmem
    · have hno : ∀ ln ∈ ls, ln.id ≠ lane.id := by
        intro ln hln heq
        have : lane.id ∈ ls.map SwimLane.id := heq ▸ List.mem_map_of_mem _ hln
        exact (List.nodup_cons.mp hn).1 this
      rw [laneMapOf_aux_not_mem _ _ _ hno]
      simp
    · exact ih _ (List.nodup_cons.mp hn).2 hmem

theorem laneMapOf_eq_findLane (lanes : List SwimLane) (hn : (lanes.map SwimLane.id).Nodup)
    (k : String) : laneMapOf lanes k = findLane lanes k := by
  cases hf : findLane lanes k with
  | none =>
    have hno : ∀ lane ∈ lanes, lane.id ≠ k := by
      intro lane hm
      have := List.find?_eq_none.mp hf lane hm
      simpa using this
    exact laneMapOf_aux_not_mem lanes _ k hno
  | some lane =>
    have hp : lane.id = k := by simpa using List.find?_some hf
    have hm : lane ∈ lanes := List.mem_of_find?_eq_some hf
    subst hp
    exact laneMapOf_aux_mem lanes _ lane hn hm

theorem findLane_eq_some (lanes : List SwimLane) (lane : SwimLane) (k : String)
    (hf : findLane lanes k = some lane) : lane ∈ lanes ∧ lane.id = k :=
  ⟨List.mem_of_find?_eq_some hf, by simpa using List.find?_some hf⟩

theorem findLane_self (lanes : List SwimLane) (lane : SwimLane)
    (hn : (lanes.map SwimLane.id).Nodup) (hm : lane ∈ lanes) :
    findLane lanes lane.id = some lane := by
  induction lanes with
  | nil => cases hm
  | cons l ls ih =>
    rcases List.mem_cons.mp hm with rfl | hmem
    · simp [findLane]
    · have hne : l.id ≠ lane.id := by
        intro heq
        exact (List.nodup_cons.mp hn).1 (heq ▸ List.mem_map_of_mem _ hmem)
      rw [findLane, List.find?_cons_of_neg _ (by simpa using hne)]
      exact ih (List.nodup_cons.mp hn).2 hmem

theorem reorderSwimLanes_swimLanes_eq (s : Store) (newOrder : List String)
    (hn : (s.swimLanes.map SwimLane.id).Nodup) :
    (reorderSwimLanes newOrder s).swimLanes = newOrder.filterMap (findLane s.swimLanes) := by
  show newOrder.filterMap (laneMapOf s.swimLanes) = _
  induction newOrder with
  | nil => rfl
  | cons x xs ih => simp [List.filterMap_cons, ih, laneMapOf_eq_findLane s.swimLanes hn x]

/-- C9: on a full ordered sequence of lane identifiers (possibly with extra,
unknown identifiers), `reorderSwimLanes` re-sorts the existing lane records to
the sequence's order: the result is the per-identifier lookup down `newOrder`,
every current lane still appears, and only current lane records appear. -/
theorem reorderSwimLanes_full_behavior (s : Store) (newOrder : List String)
    (hn : (s.swimLanes.map SwimLane.id).Nodup)
    (hfull : ∀ lane ∈ s.swimLanes, lane.id ∈ newOrder) :
    (reorderSwimLanes newOrder s).swimLanes = newOrder.filterMap (findLane s.swimLanes)
    ∧ (∀ lane ∈ s.swimLanes, lane ∈ (reorderSwimLanes newOrder s).swimLanes)
    ∧ (∀ lane2 ∈ (reorderSwimLanes newOrder s).swimLanes, lane2 ∈ s.swimLanes) := by
  refine ⟨reorderSwimLanes_swimLanes_eq s newOrder hn, ?_, ?_⟩
  · intro lane hm
    rw [reorderSwimLanes_swimLanes_eq s newOrder hn]
    exact List.mem_filterMap.mpr ⟨lane.id, hfull lane hm, findLane_self s.swimLanes lane hn hm⟩
  · intro lane2 hm2
    rw [reorderSwimLanes_swimLanes_eq s newOrder hn] at hm2
    rcases List.mem_filterMap.mp hm2 with ⟨i, _, hfind⟩
    exact (findLane_eq_some s.swimLanes lane2 i hfind).1

/-- Witness for C9: re-sorting `storeA`'s two lanes to `["done", "todo", "x"]`
(the unknown `"x"` is dropped). -/
theorem reorderSwimLanes_full_behavior_witness :
    (reorderSwimLanes ["done", "todo", "x"] storeA).swimLanes
        = ["done", "todo", "x"].filterMap (findLane storeA.swimLanes)
    ∧ (⟨"todo", "To-do", "blue"⟩ : SwimLane)
        ∈ (reorderSwimLanes ["done", "todo", "x"] storeA).swimLanes :=
  ⟨(reorderSwimLanes_full_behavior storeA ["done", "todo", "x"] (by decide) (by decide)).1,
   (reorderSwimLanes_full_behavior storeA ["done", "todo", "x"] (by decide) (by decide)).2.1
     ⟨"todo", "To-do", "blue"⟩ (by decide)⟩

/-- C10: for an arbitrary input list, the resulting lane list is exactly the
existing records looked up down `newOrder`; a lane whose identifier is omitted
disappears from the lane list, while the task map and the whole
`tasksByStatus` index (the omitted lane's entry included) are untouched. -/
theorem reorderSwimLanes_partial_behavior (s : Store) (newOrder : List String)
    (hn : (s.swimLanes.map SwimLane.id).Nodup) :
    (reorderSwimLanes newOrder s).swimLanes = newOrder.filterMap (findLane s.swimLanes)
    ∧ (∀ lane ∈ s.swimLanes, lane.id ∉ newOrder →
        ∀ lane2 ∈ (reorderSwimLanes newOrder s).swimLanes, lane2.id ≠ lane.id)
    ∧ (reorderSwimLanes newOrder s).tasks = s.tasks
    ∧ (reorderSwimLanes newOrder s).tasksByStatus = s.tasksByStatus := by
  refine ⟨reorderSwimLanes_swimLanes_eq s newOrder hn, ?_, rfl, rfl⟩
  intro lane _ hout lane2 hm2 heq
  rw [reorderSwimLanes_swimLanes_eq s newOrder hn] at hm2
  rcases List.mem_filterMap.mp hm2 with ⟨i, hi, hfind⟩
  have h2 := (findLane_eq_some s.swimLanes lane2 i hfind).2
  have hli : lane.id = i := heq.symm.trans h2
  exact absurd hi (hli ▸ hout)

/-- Witness for C10: dropping lane `"todo"` from `storeA` by omitting it from
the input, with task map and index unchanged. -/
theorem reorderSwimLanes_partial_behavior_witness :
    (reorderSwimLanes ["done"] storeA).swimLanes = ["done"].filterMap (findLane storeA.swimLanes)
    ∧ (∀ lane2 ∈ (reorderSwimLanes ["done"] storeA).swimLanes, lane2.id ≠ "todo")
    ∧ (reorderSwimLanes ["done"] storeA).tasksByStatus = storeA.tasksByStatus :=
  ⟨(reorderSwimLanes_partial_behavior storeA ["done"] (by decide)).1,
   (reorderSwimLanes_partial_behavior storeA ["done"] (by decide)).2.1
     ⟨"todo", "To-do", "blue"⟩ (by decide) (by decide),
   (reorderSwimLanes_partial_behavior storeA ["done"] (by decide)).2.2.2⟩

/-- The store before any entry has been seeded: both dictionaries empty. -/
def emptyStore : Store :=
  { tasks := fun _ => none, tasksByStatus := fun _ => none, swimLanes := defaultSwimLanes }

/-- C3 counterexample: from a store with no `"todo"` entry, `addTask` with
status `"todo"` followed by `deleteTask` of the same fresh identifier leaves a
new empty `"todo"` entry behind — the index is not restored to its pre-Add
state. -/
theorem addTask_deleteTask_counterexample :
    (deleteTask "n1" (addTask sampleTaskData "n1" "t0" emptyStore)).tasksByStatus "todo"
        = some []
    ∧ emptyStore.tasksByStatus "todo" = none :=
  ⟨by decide, rfl⟩

/-- C3 amended: add-then-delete of a fresh identifier restores the store
exactly, provided the new task's status is a nonempty string whose index
entry already exists and does not contain the fresh identifier (deletion of a
task whose status key was absent leaves a new empty entry, and an
empty-string status makes the delete a no-op). -/
theorem addTask_deleteTask_restores (s : Store) (td : TaskData) (id now : String)
    (hid : s.tasks id = none) (v : List String) (hv : s.tasksByStatus td.status = some v)
    (hnotin : id ∉ v) (hst : td.status ≠ "") :
    deleteTask id (addTask td id now s) = s := by
  have hstatus : (mkTask td id now).status = td.status := rfl
  have hget : (addTask td id now s).tasks id = some (mkTask td id now) := by
    simp [addTask]
  have hfilter : ((v ++ [id]).filter (fun x => x ≠ id)) = v := by
    rw [List.filter_append]
    have h1 : v.filter (fun x => x ≠ id) = v :=
      List.filter_eq_self.mpr (fun a ha => by
        simp only [ne_eq, decide_eq_true_eq]
        exact fun heq => hnotin (heq ▸ ha))
    have h2 : ([id].filter (fun x => x ≠ id)) = [] := by simp
    rw [h1, h2, List.append_nil]
  rw [deleteTask, hget]
  simp only [hstatus, if_neg hst]
  have hentry : entryOf (addTask td id now s).tasksByStatus td.status = v ++ [id] := by
    simp [addTask, entryOf, mapSet, hv]
  cases s with
  | mk tk tbs lanes =>
    have hid2 : tk id = none := hid
    have hv2 : tbs td.status = some v := hv
    simp only [addTask]
    congr 1
    · funext k
      by_cases hk : k = id
      · subst hk
        simp only [mapDel, if_pos rfl]
        exact hid2.symm
      · simp [mapDel, mapSet, hk]
    · funext k
      by_cases hk : k = td.status
      · subst hk
        rw [mapSet_same]
        have hE : entryOf (mapSet tbs td.status (entryOf tbs td.status ++ [id])) td.status
            = v ++ [id] := by
          simp [entryOf, mapSet, hv2]
        rw [hE, hfilter, hv2]
      · simp [mapSet, hk]

/-- Witness for C3's amended statement: add-then-delete of fresh `"n1"` with
status `"todo"` on `storeA`, whose `"todo"` entry exists. -/
theorem addTask_deleteTask_restores_witness :
    deleteTask "n1" (addTask sampleTaskData "n1" "t5" storeA) = storeA :=
  addTask_deleteTask_restores storeA sampleTaskData "n1" "t5" rfl ["a"] rfl (by decide)
    (by decide)

/-- One store operation of the provider, with the code's nondeterministic
inputs (generated identifiers, timestamps, random color) made explicit. -/
inductive Op where
  | opAddTask (td : TaskData) (id now : String)
  | opUpdateTask (id : String) (p : TaskPatch) (now : String)
  | opDeleteTask (id : String)
  | opMoveTask (taskId newStatus now : String)
  | opReorderTasks (status : String) (newOrder : List String)
  | opAddSwimLane (name id color : String)
  | opUpdateSwimLane (id : String) (p : LanePatch)
  | opDeleteSwimLane (id now : String)
  | opReorderSwimLanes (newOrder : List String)

def applyOp (op : Op) (s : Store) : Store :=
  match op with
  | .opAddTask td id now => addTask td id now s
  | .opUpdateTask id p now => updateTask id p now s
  | .opDeleteTask id => deleteTask id s
  | .opMoveTask taskId newStatus now => moveTask taskId newStatus now s
  | .opReorderTasks status newOrder => reorderTasks status newOrder s
  | .opAddSwimLane name id color => addSwimLane name id color s
  | .opUpdateSwimLane id p => updateSwimLane id p s
  | .opDeleteSwimLane id now => deleteSwimLane id now s
  | .opReorderSwimLanes newOrder => reorderSwimLanes newOrder s

def applyOps (ops : List Op) (s : Store) : Store :=
  ops.foldl (fun st op => applyOp op st) s

/-- Every task identifier occurs exactly once in the entry named by the
task's own status field. -/
def StatusCount (s : Store) : Prop :=
  ∀ id t, s.tasks id = some t → (entryOf s.tasksByStatus t.status).count id = 1

/-- A task identifier occurs in no entry other than its status's. -/
def NoCrossEntry (s : Store) : Prop :=
  ∀ id t, s.tasks id = some t → ∀ k, k ≠ t.status → id ∉ entryOf s.tasksByStatus k

/-- Every identifier stored in some entry denotes an existing task. -/
def NoDangling (s : Store) : Prop :=
  ∀ k x, x ∈ entryOf s.tasksByStatus k → (s.tasks x).isSome

/-- The task map and the denormalized index agree. -/
def Consistent (s : Store) : Prop := StatusCount s ∧ NoCrossEntry s ∧ NoDangling s

/-- Every task's status field names a lane present in the lane list. -/
def LanesValid (s : Store) : Prop :=
  ∀ id t, s.tasks id = some t → ∃ lane ∈ s.swimLanes, lane.id = t.status

/-- A generated identifier unseen by the store: not a task key, in no entry. -/
def FreshTaskId (s : Store) (id : String) : Prop :=
  s.tasks id = none ∧ ∀ k, id ∉ entryOf s.tasksByStatus k

/-- Side conditions under which one operation keeps the index consistent:
generated identifiers are fresh, `updateTask` does not change the status
(the documented two-step coupling), `reorderTasks` gets a permutation of the
current entry. The other operations need no restriction. -/
def OpOk (s : Store) : Op → Prop
  | .opAddTask _ id _ => FreshTaskId s id
  | .opUpdateTask id p _ => ∀ t, s.tasks id = some t → p.status = none ∨ p.status = some t.status
  | .opReorderTasks status newOrder => List.Perm newOrder (entryOf s.tasksByStatus status)
  | .opAddSwimLane _ id _ => ∀ tid t, s.tasks tid = some t → t.status ≠ id
  | _ => True

def OpsOk (s : Store) : List Op → Prop
  | [] => True
  | op :: rest => OpOk s op ∧ OpsOk (applyOp op s) rest

/-- The side conditions of `OpOk` plus: statuses fed to `addTask` and
`moveTask` name existing lanes, `updateSwimLane` does not rewrite the lane's
identifier, and `reorderSwimLanes` keeps every current lane identifier. -/
def OpOkFull (s : Store) : Op → Prop
  | .opAddTask td id _ => FreshTaskId s id ∧ ∃ lane ∈ s.swimLanes, lane.id = td.status
  | .opUpdateTask id p _ => ∀ t, s.tasks id = some t → p.status = none ∨ p.status = some t.status
  | .opMoveTask _ newStatus _ => ∃ lane ∈ s.swimLanes, lane.id = newStatus
  | .opReorderTasks status newOrder => List.Perm newOrder (entryOf s.tasksByStatus status)
  | .opAddSwimLane _ id _ => ∀ tid t, s.tasks tid = some t → t.status ≠ id
  | .opUpdateSwimLane _ p => p.id = none
  | .opReorderSwimLanes newOrder => ∀ lane ∈ s.swimLanes, lane.id ∈ newOrder
  | _ => True

def OpsOkFull (s : Store) : List Op → Prop
  | [] => True
  | op :: rest => OpOkFull s op ∧ OpsOkFull (applyOp op s) rest

theorem entryOf_mapSet_same (m : String → Option (List String)) (k : String) (v : List String) :
    entryOf (mapSet m k v) k = v := by
  simp [entryOf, mapSet]

theorem entryOf_mapSet_ne (m : String → Option (List String)) (k : String) (v : List String)
    (x : String) (h : x ≠ k) : entryOf (mapSet m k v) x = entryOf m x := by
  simp [entryOf, mapSet, h]

theorem entryOf_mapDel_same (m : String → Option (List String)) (k : String) :
    entryOf (mapDel m k) k = [] := by
  simp [entryOf, mapDel]

theorem entryOf_mapDel_ne (m : String → Option (List String)) (k x : String) (h : x ≠ k) :
    entryOf (mapDel m k) x = entryOf m x := by
  simp [entryOf, mapDel, h]

theorem mem_entry_eq_status (s : Store) (hNC : NoCrossEntry s) (x : String) (t : Task)
    (ht : s.tasks x = some t) (k : String) (hk : x ∈ entryOf s.tasksByStatus k) :
    k = t.status := by
  by_contra hne
  exact hNC x t ht k hne hk

theorem task_mem_entry (s : Store) (hSC : StatusCount s) (x : String) (t : Task)
    (ht : s.tasks x = some t) : x ∈ entryOf s.tasksByStatus t.status := by
  have := hSC x t ht
  exact List.count_pos_iff.mp (by omega)

theorem entry_nodup (s : Store) (hC : Consistent s) (k : String) :
    (entryOf s.tasksByStatus k).Nodup := by
  obtain ⟨h1, h2, h3⟩ := hC
  rw [List.nodup_iff_count_le_one]
  intro a
  by_cases ha : a ∈ entryOf s.tasksByStatus k
  · have hs := h3 k a ha
    obtain ⟨t, ht⟩ := Option.isSome_iff_exists.mp hs
    have hk : k = t.status := mem_entry_eq_status s h2 a t ht k ha
    subst hk
    exact le_of_eq (h1 a t ht)
  · rw [List.count_eq_zero_of_not_mem ha]
    omega

theorem jsDedupAux_of_nodup (l : List String) (seen : List String)
    (h : l.Nodup) (hd : ∀ x ∈ l, x ∉ seen) : jsDedupAux l seen = l := by
  induction l generalizing seen with
  | nil => rfl
  | cons x xs ih =>
    rw [jsDedupAux, if_neg (hd x (List.mem_cons_self _ _))]
    congr 1
    refine ih _ (List.nodup_cons.mp h).2 ?_
    intro y hy
    simp only [List.mem_cons]
    push_neg
    exact ⟨fun heq => (List.nodup_cons.mp h).1 (heq ▸ hy), hd y (List.mem_cons_of_mem _ hy)⟩

theorem jsDedup_of_nodup (l : List String) (h : l.Nodup) : jsDedup l = l :=
  jsDedupAux_of_nodup l [] h (by simp)

theorem addTask_tasks_eq (td : TaskData) (id now : String) (s : Store) :
    (addTask td id now s).tasks = mapSet s.tasks id (mkTask td id now) := rfl

theorem addTask_tbs_eq (td : TaskData) (id now : String) (s : Store) :
    (addTask td id now s).tasksByStatus
      = mapSet s.tasksByStatus td.status (entryOf s.tasksByStatus td.status ++ [id]) := rfl

theorem addTask_lanes_eq (td : TaskData) (id now : String) (s : Store) :
    (addTask td id now s).swimLanes = s.swimLanes := rfl

theorem consistent_addTask (s : Store) (td : TaskData) (id now : String)
    (hC : Consistent s) (hf : FreshTaskId s id) : Consistent (addTask td id now s) := by
  obtain ⟨h1, h2, h3⟩ := hC
  obtain ⟨hfid, hfent⟩ := hf
  have hstat : (mkTask td id now).status = td.status := rfl
  refine ⟨?_, ?_, ?_⟩
  · intro x t hx
    rw [addTask_tbs_eq]
    rw [addTask_tasks_eq] at hx
    by_cases hxi : x = id
    · subst hxi
      rw [mapSet_same] at hx
      injection hx with hx
      subst hx
      rw [hstat, entryOf_mapSet_same, List.count_append]
      rw [List.count_eq_zero_of_not_mem (hfent td.status)]
      simp
    · rw [mapSet_ne _ _ _ _ hxi] at hx
      by_cases hks : t.status = td.status
      · rw [hks, entryOf_mapSet_same, List.count_append]
        have := h1 x t hx
        rw [hks] at this
        rw [this]
        simp [hxi]
      · rw [entryOf_mapSet_ne _ _ _ _ hks]
        exact h1 x t hx
  · intro x t hx k hk
    rw [addTask_tbs_eq]
    rw [addTask_tasks_eq] at hx
    by_cases hxi : x = id
    · subst hxi
      rw [mapSet_same] at hx
      injection hx with hx
      subst hx
      rw [hstat] at hk
      rw [entryOf_mapSet_ne _ _ _ _ hk]
      exact hfent k
    · rw [mapSet_ne _ _ _ _ hxi] at hx
      by_cases hkd : k = td.status
      · subst hkd
        rw [entryOf_mapSet_same]
        intro hmem
        rcases List.mem_append.mp hmem with hmem | hmem
        · exact h2 x t hx _ hk hmem
        · simp at hmem
          exact hxi hmem
      · rw [entryOf_mapSet_ne _ _ _ _ hkd]
        exact h2 x t hx k hk
  · intro k x hmem
    rw [addTask_tbs_eq] at hmem
    rw [addTask_tasks_eq]
    by_cases hxi : x = id
    · subst hxi
      rw [mapSet_same]
      simp
    · rw [mapSet_ne _ _ _ _ hxi]
      by_cases hkd : k = td.status
      · subst hkd
        rw [entryOf_mapSet_same] at hmem
        rcases List.mem_append.mp hmem with hmem | hmem
        · exact h3 _ x hmem
        · simp at hmem
          exact absurd hmem hxi
      · rw [entryOf_mapSet_ne _ _ _ _ hkd] at hmem
        exact h3 k x hmem

theorem updateTask_tbs_eq (s : Store) (id : String) (p : TaskPatch) (now : String) :
    (updateTask id p now s).tasksByStatus = s.tasksByStatus := by
  cases h : s.tasks id <;> simp [updateTask, h]

theorem updateTask_lanes_eq (s : Store) (id : String) (p : TaskPatch) (now : String) :
    (updateTask id p now s).swimLanes = s.swimLanes := by
  cases h : s.tasks id <;> simp [updateTask, h]

theorem updateTask_tasks_some (s : Store) (id : String) (p : TaskPatch) (now : String)
    (t : Task) (ht : s.tasks id = some t) :
    (updateTask id p now s).tasks = mapSet s.tasks id (mergeTask t p now) := by
  simp [updateTask, ht]

theorem consistent_updateTask (s : Store) (id : String) (p : TaskPatch) (now : String)
    (hC : Consistent s)
    (hok : ∀ t, s.tasks id = some t → p.status = none ∨ p.status = some t.status) :
    Consistent (updateTask id p now s) := by
  obtain ⟨h1, h2, h3⟩ := hC
  cases ht : s.tasks id with
  | none => rw [updateTask, ht]; exact ⟨h1, h2, h3⟩
  | some t =>
    have hst : (mergeTask t p now).status = t.status := by
      rcases hok t ht with h | h <;> simp [mergeTask, h]
    refine ⟨?_, ?_, ?_⟩
    · intro x u hx
      rw [updateTask_tasks_some s id p now t ht] at hx
      rw [updateTask_tbs_eq]
      by_cases hxi : x = id
      · subst hxi
        rw [mapSet_same] at hx
        injection hx with hx
        subst hx
        rw [hst]
        exact h1 x t ht
      · rw [mapSet_ne _ _ _ _ hxi] at hx
        exact h1 x u hx
    · intro x u hx k hk
      rw [updateTask_tasks_some s id p now t ht] at hx
      rw [updateTask_tbs_eq]
      by_cases hxi : x = id
      · subst hxi
        rw [mapSet_same] at hx
        injection hx with hx
        subst hx
        rw [hst] at hk
        exact h2 x t ht k hk
      · rw [mapSet_ne _ _ _ _ hxi] at hx
        exact h2 x u hx k hk
    · intro k x hmem
      rw [updateTask_tbs_eq] at hmem
      rw [updateTask_tasks_some s id p now t ht]
      by_cases hxi : x = id
      · subst hxi
        rw [mapSet_same]
        rfl
      · rw [mapSet_ne _ _ _ _ hxi]
        exact h3 k x hmem

theorem deleteTask_tasks_some (s : Store) (id : String) (t : Task)
    (ht : s.tasks id = some t) (hst : t.status ≠ "") :
    (deleteTask id s).tasks = mapDel s.tasks id := by
  simp [deleteTask, ht, hst]

theorem deleteTask_tbs_some (s : Store) (id : String) (t : Task)
    (ht : s.tasks id = some t) (hst : t.status ≠ "") :
    (deleteTask id s).tasksByStatus
      = mapSet s.tasksByStatus t.status
          ((entryOf s.tasksByStatus t.status).filter (fun x => x ≠ id)) := by
  simp [deleteTask, ht, hst]

theorem consistent_deleteTask (s : Store) (id : String) (hC : Consistent s) :
    Consistent (deleteTask id s) := by
  obtain ⟨h1, h2, h3⟩ := hC
  cases ht : s.tasks id with
  | none => rw [deleteTask, ht]; exact ⟨h1, h2, h3⟩
  | some t =>
    by_cases hst : t.status = ""
    · simp only [deleteTask, ht]
      rw [if_pos hst]
      exact ⟨h1, h2, h3⟩
    · refine ⟨?_, ?_, ?_⟩
      · intro x u hx
        rw [deleteTask_tasks_some s id t ht hst] at hx
        rw [deleteTask_tbs_some s id t ht hst]
        by_cases hxi : x = id
        · subst hxi
          rw [mapDel_same] at hx
          cases hx
        · rw [mapDel_ne _ _ _ hxi] at hx
          by_cases hks : u.status = t.status
          · rw [hks, entryOf_mapSet_same, List.count_filter (by simp [hxi])]
            rw [← hks]
            exact h1 x u hx
          · rw [entryOf_mapSet_ne _ _ _ _ hks]
            exact h1 x u hx
      · intro x u hx k hk
        rw [deleteTask_tasks_some s id t ht hst] at hx
        rw [deleteTask_tbs_some s id t ht hst]
        by_cases hxi : x = id
        · subst hxi
          rw [mapDel_same] at hx
          cases hx
        · rw [mapDel_ne _ _ _ hxi] at hx
          by_cases hkt : k = t.status
          · subst hkt
            rw [entryOf_mapSet_same]
            intro hmem
            exact h2 x u hx _ hk (List.mem_of_mem_filter hmem)
          · rw [entryOf_mapSet_ne _ _ _ _ hkt]
            exact h2 x u hx k hk
      · intro k x hmem
        rw [deleteTask_tbs_some s id t ht hst] at hmem
        rw [deleteTask_tasks_some s id t ht hst]
        by_cases hkt : k = t.status
        · subst hkt
          rw [entryOf_mapSet_same] at hmem
          have hx := List.mem_of_mem_filter hmem
          have hxi : x ≠ id := by
            have := List.of_mem_filter hmem
            simpa using this
          rw [mapDel_ne _ _ _ hxi]
          exact h3 _ x hx
        · rw [entryOf_mapSet_ne _ _ _ _ hkt] at hmem
          have hxi : x ≠ id := by
            intro heq
            subst heq
            exact h2 x t ht k hkt hmem
          rw [mapDel_ne _ _ _ hxi]
          exact h3 k x hmem

theorem moveTask_tasks_some (s : Store) (taskId newStatus now : String) (t : Task)
    (ht : s.tasks taskId = some t) (hne : t.status ≠ newStatus) :
    (moveTask taskId newStatus now s).tasks
      = mapSet s.tasks taskId { t with status := newStatus, updatedAt := now } := by
  simp [moveTask, ht, hne]

theorem moveTask_tbs_some (s : Store) (taskId newStatus now : String) (t : Task)
    (ht : s.tasks taskId = some t) (hne : t.status ≠ newStatus) :
    (moveTask taskId newStatus now s).tasksByStatus
      = mapSet (mapSet s.tasksByStatus t.status
            ((entryOf s.tasksByStatus t.status).filter (fun x => x ≠ taskId))) newStatus
            (jsDedup (entryOf s.tasksByStatus newStatus ++ [taskId])) := by
  simp [moveTask, ht, hne]

theorem consistent_moveTask (s : Store) (taskId newStatus now : String) (hC : Consistent s) :
    Consistent (moveTask taskId newStatus now s) := by
  have hC0 := hC
  obtain ⟨h1, h2, h3⟩ := hC
  cases ht : s.tasks taskId with
  | none =>
    simp only [moveTask, ht]
    exact ⟨h1, h2, h3⟩
  | some t =>
    by_cases heq : t.status = newStatus
    · simp only [moveTask, ht]
      rw [if_pos heq]
      exact ⟨h1, h2, h3⟩
    · have hTnotin : taskId ∉ entryOf s.tasksByStatus newStatus := by
        intro hmem
        exact heq (mem_entry_eq_status s h2 taskId t ht newStatus hmem).symm
      have hD : jsDedup (entryOf s.tasksByStatus newStatus ++ [taskId])
          = entryOf s.tasksByStatus newStatus ++ [taskId] := by
        refine jsDedup_of_nodup _ ?_
        rw [List.nodup_append]
        refine ⟨entry_nodup s hC0 newStatus, List.nodup_singleton _, ?_⟩
        intro a ha hb
        rw [List.mem_singleton] at hb
        subst hb
        exact hTnotin ha
      have htbs := moveTask_tbs_some s taskId newStatus now t ht heq
      rw [hD] at htbs
      have htk := moveTask_tasks_some s taskId newStatus now t ht heq
      -- entries of the new index
      have hE_new : entryOf (moveTask taskId newStatus now s).tasksByStatus newStatus
          = entryOf s.tasksByStatus newStatus ++ [taskId] := by
        rw [htbs, entryOf_mapSet_same]
      have hE_old : entryOf (moveTask taskId newStatus now s).tasksByStatus t.status
          = (entryOf s.tasksByStatus t.status).filter (fun x => x ≠ taskId) := by
        rw [htbs, entryOf_mapSet_ne _ _ _ _ heq, entryOf_mapSet_same]
      have hE_other : ∀ k, k ≠ newStatus → k ≠ t.status →
          entryOf (moveTask taskId newStatus now s).tasksByStatus k
            = entryOf s.tasksByStatus k := by
        intro k hk1 hk2
        rw [htbs, entryOf_mapSet_ne _ _ _ _ hk1, entryOf_mapSet_ne _ _ _ _ hk2]
      refine ⟨?_, ?_, ?_⟩
      · intro x u hx
        rw [htk] at hx
        by_cases hxi : x = taskId
        · subst hxi
          rw [mapSet_same] at hx
          injection hx with hx
          subst hx
          simp only [hE_new]
          rw [List.count_append, List.count_eq_zero_of_not_mem hTnotin]
          simp
        · rw [mapSet_ne _ _ _ _ hxi] at hx
          by_cases hsn : u.status = newStatus
          · rw [hsn, hE_new, List.count_append]
            have h0 : x ∉ [taskId] := by simp [hxi]
            rw [List.count_eq_zero_of_not_mem h0]
            have := h1 x u hx
            rw [hsn] at this
            omega
          · by_cases hso : u.status = t.status
            · rw [hso, hE_old, List.count_filter (by simp [hxi]), ← hso]
              exact h1 x u hx
            · rw [hE_other u.status hsn hso]
              exact h1 x u hx
      · intro x u hx k hk
        rw [htk] at hx
        by_cases hxi : x = taskId
        · subst hxi
          rw [mapSet_same] at hx
          injection hx with hx
          subst hx
          -- hk : k ≠ newStatus
          by_cases hko : k = t.status
          · subst hko
            rw [hE_old]
            intro hmem
            have := List.of_mem_filter hmem
            simp at this
          · rw [hE_other k hk hko]
            intro hmem
            have := mem_entry_eq_status s h2 x t ht k hmem
            exact hko this
        · rw [mapSet_ne _ _ _ _ hxi] at hx
          by_cases hkn : k = newStatus
          · subst hkn
            rw [hE_new]
            intro hmem
            rcases List.mem_append.mp hmem with hmem | hmem
            · exact h2 x u hx _ hk hmem
            · rw [List.mem_singleton] at hmem
              exact hxi hmem
          · by_cases hko : k = t.status
            · subst hko
              rw [hE_old]
              intro hmem
              exact h2 x u hx _ hk (List.mem_of_mem_filter hmem)
            · rw [hE_other k hkn hko]
              exact h2 x u hx k hk
      · intro k x hmem
        rw [htk]
        have hsome : (s.tasks x).isSome → (mapSet s.tasks taskId
            { t with status := newStatus, updatedAt := now } x).isSome := by
          intro hs
          by_cases hxi : x = taskId
          · subst hxi; rw [mapSet_same]; rfl
          · rw [mapSet_ne _ _ _ _ hxi]; exact hs
        by_cases hkn : k = newStatus
        · subst hkn
          rw [hE_new] at hmem
          rcases List.mem_append.mp hmem with hmem | hmem
          · exact hsome (h3 _ x hmem)
          · rw [List.mem_singleton] at hmem
            subst hmem
            rw [mapSet_same]
            rfl
        · by_cases hko : k = t.status
          · subst hko
            rw [hE_old] at hmem
            exact hsome (h3 _ x (List.mem_of_mem_filter hmem))
          · rw [hE_other k hkn hko] at hmem
            exact hsome (h3 k x hmem)

theorem consistent_reorderTasks (s : Store) (status : String) (newOrder : List String)
    (hC : Consistent s) (hperm : List.Perm newOrder (entryOf s.tasksByStatus status)) :
    Consistent (reorderTasks status newOrder s) := by
  obtain ⟨h1, h2, h3⟩ := hC
  have htbs : (reorderTasks status newOrder s).tasksByStatus
      = mapSet s.tasksByStatus status newOrder := rfl
  refine ⟨?_, ?_, ?_⟩
  · intro x u hx
    rw [htbs]
    by_cases hks : u.status = status
    · rw [hks, entryOf_mapSet_same, hperm.count_eq, ← hks]
      exact h1 x u hx
    · rw [entryOf_mapSet_ne _ _ _ _ hks]
      exact h1 x u hx
  · intro x u hx k hk
    rw [htbs]
    by_cases hks : k = status
    · subst hks
      rw [entryOf_mapSet_same]
      intro hmem
      exact h2 x u hx _ hk (hperm.subset hmem)
    · rw [entryOf_mapSet_ne _ _ _ _ hks]
      exact h2 x u hx k hk
  · intro k x hmem
    rw [htbs] at hmem
    by_cases hks : k = status
    · subst hks
      rw [entryOf_mapSet_same] at hmem
      exact h3 _ x (hperm.subset hmem)
    · rw [entryOf_mapSet_ne _ _ _ _ hks] at hmem
      exact h3 k x hmem

theorem consistent_addSwimLane (s : Store) (name id color : String) (hC : Consistent s)
    (hfresh : ∀ tid t, s.tasks tid = some t → t.status ≠ id) :
    Consistent (addSwimLane name id color s) := by
  obtain ⟨h1, h2, h3⟩ := hC
  have htbs : (addSwimLane name id color s).tasksByStatus
      = mapSet s.tasksByStatus id [] := rfl
  refine ⟨?_, ?_, ?_⟩
  · intro x u hx
    rw [htbs]
    rw [entryOf_mapSet_ne _ _ _ _ (hfresh x u hx)]
    exact h1 x u hx
  · intro x u hx k hk
    rw [htbs]
    by_cases hki : k = id
    · subst hki
      rw [entryOf_mapSet_same]
      simp
    · rw [entryOf_mapSet_ne _ _ _ _ hki]
      exact h2 x u hx k hk
  · intro k x hmem
    rw [htbs] at hmem
    by_cases hki : k = id
    · subst hki
      rw [entryOf_mapSet_same] at hmem
      simp at hmem
    · rw [entryOf_mapSet_ne _ _ _ _ hki] at hmem
      exact h3 k x hmem

theorem consistent_updateSwimLane (s : Store) (id : String) (p : LanePatch)
    (hC : Consistent s) : Consistent (updateSwimLane id p s) := hC

theorem consistent_reorderSwimLanes (s : Store) (newOrder : List String)
    (hC : Consistent s) : Consistent (reorderSwimLanes newOrder s) := hC

theorem deleteSwimLane_lanes_eq (s : Store) (id now : String) :
    (deleteSwimLane id now s).swimLanes
      = s.swimLanes.filter (fun lane => lane.id ≠ id) := by
  simp [deleteSwimLane]

theorem deleteSwimLane_tasks_empty (s : Store) (id now : String)
    (h : entryOf s.tasksByStatus id = []) :
    (deleteSwimLane id now s).tasks = s.tasks := by
  simp [deleteSwimLane, h]

theorem deleteSwimLane_tbs_empty (s : Store) (id now : String)
    (h : entryOf s.tasksByStatus id = []) :
    (deleteSwimLane id now s).tasksByStatus = mapDel s.tasksByStatus id := by
  simp [deleteSwimLane, h]

theorem deleteSwimLane_tasks_last (s : Store) (id now : String)
    (hne : entryOf s.tasksByStatus id ≠ [])
    (hf : s.swimLanes.filter (fun lane => lane.id ≠ id) = []) (k : String) :
    (deleteSwimLane id now s).tasks k
      = if k ∈ entryOf s.tasksByStatus id then none else s.tasks k := by
  have hf2 : s.swimLanes.filter (fun lane => !decide (lane.id = id)) = [] := by
    simpa using hf
  simp [deleteSwimLane, hne, hf2]

theorem deleteSwimLane_tbs_last (s : Store) (id now : String)
    (hne : entryOf s.tasksByStatus id ≠ [])
    (hf : s.swimLanes.filter (fun lane => lane.id ≠ id) = []) :
    (deleteSwimLane id now s).tasksByStatus = mapDel s.tasksByStatus id := by
  have hf2 : s.swimLanes.filter (fun lane => !decide (lane.id = id)) = [] := by
    simpa using hf
  simp [deleteSwimLane, hne, hf2]

theorem deleteSwimLane_tasks_reassign (s : Store) (id now : String) (target : SwimLane)
    (rest : List SwimLane) (hne : entryOf s.tasksByStatus id ≠ [])
    (hf : s.swimLanes.filter (fun lane => lane.id ≠ id) = target :: rest) (k : String) :
    (deleteSwimLane id now s).tasks k
      = if k ∈ entryOf s.tasksByStatus id
        then (s.tasks k).map (fun t => mergeTask t { status := some target.id } now)
        else s.tasks k := by
  simp only [deleteSwimLane, if_neg hne, hf]
  rw [foldUpdate_tasks]

theorem deleteSwimLane_tbs_reassign (s : Store) (id now : String) (target : SwimLane)
    (rest : List SwimLane) (hne : entryOf s.tasksByStatus id ≠ [])
    (hf : s.swimLanes.filter (fun lane => lane.id ≠ id) = target :: rest) :
    (deleteSwimLane id now s).tasksByStatus
      = mapSet (mapDel s.tasksByStatus id) target.id
          (entryOf s.tasksByStatus target.id ++ entryOf s.tasksByStatus id) := by
  simp only [deleteSwimLane, if_neg hne, hf]

theorem consistent_deleteSwimLane (s : Store) (id now : String) (hC : Consistent s) :
    Consistent (deleteSwimLane id now s) := by
  have hC0 := hC
  obtain ⟨h1, h2, h3⟩ := hC
  by_cases hl : entryOf s.tasksByStatus id = []
  · -- the lane entry was empty or absent: no task can carry status `id`
    have hnostat : ∀ x t, s.tasks x = some t → t.status ≠ id := by
      intro x t ht heq
      have hmem := task_mem_entry s h1 x t ht
      rw [heq, hl] at hmem
      simp at hmem
    have htk := deleteSwimLane_tasks_empty s id now hl
    have htbs := deleteSwimLane_tbs_empty s id now hl
    refine ⟨?_, ?_, ?_⟩
    · intro x u hx
      rw [htk] at hx
      rw [htbs, entryOf_mapDel_ne _ _ _ (hnostat x u hx)]
      exact h1 x u hx
    · intro x u hx k hk
      rw [htk] at hx
      rw [htbs]
      by_cases hki : k = id
      · subst hki
        rw [entryOf_mapDel_same]
        simp
      · rw [entryOf_mapDel_ne _ _ _ hki]
        exact h2 x u hx k hk
    · intro k x hmem
      rw [htbs] at hmem
      rw [htk]
      by_cases hki : k = id
      · subst hki
        rw [entryOf_mapDel_same] at hmem
        simp at hmem
      · rw [entryOf_mapDel_ne _ _ _ hki] at hmem
        exact h3 k x hmem
  · -- the lane holds identifiers; every task carrying status `id` sits in its entry
    have hmem_of_status : ∀ x t, s.tasks x = some t → t.status = id →
        x ∈ entryOf s.tasksByStatus id := by
      intro x t ht heq
      have := task_mem_entry s h1 x t ht
      rwa [heq] at this
    have hstatus_of_mem : ∀ x, x ∈ entryOf s.tasksByStatus id → ∀ t, s.tasks x = some t →
        t.status = id := by
      intro x hx t ht
      exact (mem_entry_eq_status s h2 x t ht id hx).symm
    cases hf : s.swimLanes.filter (fun lane => lane.id ≠ id) with
    | nil =>
      -- no other lane: all tasks in the entry are deleted, nothing else had status `id`
      have htk := deleteSwimLane_tasks_last s id now hl hf
      have htbs := deleteSwimLane_tbs_last s id now hl hf
      refine ⟨?_, ?_, ?_⟩
      · intro x u hx
        rw [htk x] at hx
        by_cases hxL : x ∈ entryOf s.tasksByStatus id
        · rw [if_pos hxL] at hx
          cases hx
        · rw [if_neg hxL] at hx
          have hus : u.status ≠ id := by
            intro heq
            exact hxL (hmem_of_status x u hx heq)
          rw [htbs, entryOf_mapDel_ne _ _ _ hus]
          exact h1 x u hx
      · intro x u hx k hk
        rw [htk x] at hx
        by_cases hxL : x ∈ entryOf s.tasksByStatus id
        · rw [if_pos hxL] at hx
          cases hx
        · rw [if_neg hxL] at hx
          rw [htbs]
          by_cases hki : k = id
          · subst hki
            rw [entryOf_mapDel_same]
            simp
          · rw [entryOf_mapDel_ne _ _ _ hki]
            exact h2 x u hx k hk
      · intro k x hmem
        rw [htbs] at hmem
        rw [htk x]
        by_cases hki : k = id
        · subst hki
          rw [entryOf_mapDel_same] at hmem
          simp at hmem
        · rw [entryOf_mapDel_ne _ _ _ hki] at hmem
          have hs := h3 k x hmem
          have hxL : x ∉ entryOf s.tasksByStatus id := by
            intro hxL
            obtain ⟨t, ht⟩ := Option.isSome_iff_exists.mp hs
            have h_id := hstatus_of_mem x hxL t ht
            exact h2 x t ht k (by rw [h_id]; exact hki) hmem
          rw [if_neg hxL]
          exact hs
    | cons target rest =>
      have htne : target.id ≠ id := by
        have hmem : target ∈ s.swimLanes.filter (fun lane => lane.id ≠ id) := by
          rw [hf]
          exact List.mem_cons_self _ _
        simpa using (List.mem_filter.mp hmem).2
      have htk := deleteSwimLane_tasks_reassign s id now target rest hl hf
      have htbs := deleteSwimLane_tbs_reassign s id now target rest hl hf
      have hE_T : entryOf (deleteSwimLane id now s).tasksByStatus target.id
          = entryOf s.tasksByStatus target.id ++ entryOf s.tasksByStatus id := by
        rw [htbs, entryOf_mapSet_same]
      have hE_id : entryOf (deleteSwimLane id now s).tasksByStatus id = [] := by
        rw [htbs, entryOf_mapSet_ne _ _ _ _ (Ne.symm htne), entryOf_mapDel_same]
      have hE_other : ∀ k, k ≠ target.id → k ≠ id →
          entryOf (deleteSwimLane id now s).tasksByStatus k = entryOf s.tasksByStatus k := by
        intro k hk1 hk2
        rw [htbs, entryOf_mapSet_ne _ _ _ _ hk1, entryOf_mapDel_ne _ _ _ hk2]
      have hmerge : ∀ t, mergeTask t { status := some target.id } now
          = { t with status := target.id, updatedAt := now } := fun t =>
        mergeTask_status_only t target.id now
      refine ⟨?_, ?_, ?_⟩
      · intro x u hx
        rw [htk x] at hx
        by_cases hxL : x ∈ entryOf s.tasksByStatus id
        · rw [if_pos hxL] at hx
          rcases Option.map_eq_some'.mp hx with ⟨t, ht, hu⟩
          subst hu
          rw [hmerge]
          have hts : t.status = id := hstatus_of_mem x hxL t ht
          have hxnotT : x ∉ entryOf s.tasksByStatus target.id := by
            intro hmemT
            exact htne ((mem_entry_eq_status s h2 x t ht target.id hmemT).trans hts)
          simp only [hE_T]
          rw [List.count_append, List.count_eq_zero_of_not_mem hxnotT]
          have := h1 x t ht
          rw [hts] at this
          omega
        · rw [if_neg hxL] at hx
          have hus : u.status ≠ id := by
            intro heq
            exact hxL (hmem_of_status x u hx heq)
          by_cases husT : u.status = target.id
          · rw [husT, hE_T, List.count_append, List.count_eq_zero_of_not_mem hxL]
            have := h1 x u hx
            rw [husT] at this
            omega
          · rw [hE_other u.status husT hus]
            exact h1 x u hx
      · intro x u hx k hk
        rw [htk x] at hx
        by_cases hxL : x ∈ entryOf s.tasksByStatus id
        · rw [if_pos hxL] at hx
          rcases Option.map_eq_some'.mp hx with ⟨t, ht, hu⟩
          have hu2 : u = { t with status := target.id, updatedAt := now } := by
            rw [← hu]
            exact hmerge t
          have hk2 : k ≠ target.id := by
            rw [hu2] at hk
            simpa using hk
          have hts : t.status = id := hstatus_of_mem x hxL t ht
          by_cases hki : k = id
          · subst hki
            rw [hE_id]
            simp
          · rw [hE_other k hk2 hki]
            intro hmem
            have := mem_entry_eq_status s h2 x t ht k hmem
            rw [hts] at this
            exact hki this
        · rw [if_neg hxL] at hx
          have hus : u.status ≠ id := by
            intro heq
            exact hxL (hmem_of_status x u hx heq)
          by_cases hkT : k = target.id
          · subst hkT
            rw [hE_T]
            intro hmem
            rcases List.mem_append.mp hmem with hmem | hmem
            · exact h2 x u hx _ hk hmem
            · exact hxL hmem
          · by_cases hki : k = id
            · subst hki
              rw [hE_id]
              simp
            · rw [hE_other k hkT hki]
              exact h2 x u hx k hk
      · intro k x hmem
        rw [htk x]
        have hsome : (s.tasks x).isSome →
            ((if x ∈ entryOf s.tasksByStatus id
              then (s.tasks x).map (fun t => mergeTask t { status := some target.id } now)
              else s.tasks x)).isSome := by
          intro hs
          by_cases hxL : x ∈ entryOf s.tasksByStatus id
          · rw [if_pos hxL]
            simpa using hs
          · rw [if_neg hxL]
            exact hs
        by_cases hkT : k = target.id
        · subst hkT
          rw [hE_T] at hmem
          rcases List.mem_append.mp hmem with hmem | hmem
          · exact hsome (h3 _ x hmem)
          · exact hsome (h3 _ x hmem)
        · by_cases hki : k = id
          · subst hki
            rw [hE_id] at hmem
            simp at hmem
          · rw [hE_other k hkT hki] at hmem
            exact hsome (h3 k x hmem)

theorem consistent_applyOp (s : Store) (op : Op) (hC : Consistent s) (hok : OpOk s op) :
    Consistent (applyOp op s) := by
  cases op with
  | opAddTask td id now => exact consistent_addTask s td id now hC hok
  | opUpdateTask id p now => exact consistent_updateTask s id p now hC hok
  | opDeleteTask id => exact consistent_deleteTask s id hC
  | opMoveTask taskId newStatus now => exact consistent_moveTask s taskId newStatus now hC
  | opReorderTasks status newOrder => exact consistent_reorderTasks s status newOrder hC hok
  | opAddSwimLane name id color => exact consistent_addSwimLane s name id color hC hok
  | opUpdateSwimLane id p => exact consistent_updateSwimLane s id p hC
  | opDeleteSwimLane id now => exact consistent_deleteSwimLane s id now hC
  | opReorderSwimLanes newOrder => exact consistent_reorderSwimLanes s newOrder hC

/-- C1 amended: starting from a consistent state, any sequence of store
operations preserves the task/index invariant — every task's identifier
occurs exactly once in the entry named by its status and in no other entry —
provided generated identifiers are fresh, no `updateTask` call changes the
status field, every `reorderTasks` call passes a permutation of the lane's
current entry, and a new lane's identifier is unseen (the `OpsOk` side
conditions). Without those provisos the invariant fails (see the
counterexample); with them it holds for all nine operations, `deleteSwimLane`
included. -/
theorem consistent_preserved_by_ops (ops : List Op) (s : Store)
    (hC : Consistent s) (hok : OpsOk s ops) : Consistent (applyOps ops s) := by
  induction ops generalizing s with
  | nil => exact hC
  | cons op rest ih => exact ih (applyOp op s) (consistent_applyOp s op hC hok.1) hok.2

theorem consistent_storeA : Consistent storeA := by
  refine ⟨?_, ?_, ?_⟩
  · intro x t hx
    simp only [storeA] at hx
    by_cases hxa : x = "a"
    · subst hxa
      rw [if_pos rfl] at hx
      injection hx with hx
      subst hx
      decide
    · rw [if_neg hxa] at hx
      cases hx
  · intro x t hx k hk
    simp only [storeA] at hx
    by_cases hxa : x = "a"
    · subst hxa
      rw [if_pos rfl] at hx
      injection hx with hx
      subst hx
      have hk2 : k ≠ "todo" := hk
      intro hmem
      by_cases hkd : k = "done"
      · subst hkd
        simp [storeA, entryOf] at hmem
      · simp [storeA, entryOf, hk2, hkd] at hmem
    · rw [if_neg hxa] at hx
      cases hx
  · intro k x hmem
    by_cases hkt : k = "todo"
    · subst hkt
      simp [storeA, entryOf] at hmem
      subst hmem
      decide
    · by_cases hkd : k = "done"
      · subst hkd
        simp [storeA, entryOf] at hmem
      · simp [storeA, entryOf, hkt, hkd] at hmem

/-- Witness for C1's amended statement: a legal two-operation run (a move and
a lane deletion) from the concrete consistent store keeps it consistent. -/
theorem consistent_preserved_by_ops_witness :
    Consistent (applyOps [Op.opMoveTask "a" "done" "t1", Op.opDeleteSwimLane "todo" "t2"]
      storeA) :=
  consistent_preserved_by_ops [Op.opMoveTask "a" "done" "t1", Op.opDeleteSwimLane "todo" "t2"]
    storeA consistent_storeA ⟨trivial, trivial, trivial⟩

/-- C1 counterexample: from the consistent store `storeA`, one `updateTask`
call whose patch carries a status change (which the code accepts and applies
to the record only) leaves the task's status reading `"done"` while its
identifier still sits (exactly once) in the `"todo"` entry and not at all in
the `"done"` entry — the invariant claimed for arbitrary operation sequences
is violated. -/
theorem consistent_not_preserved_counterexample :
    Consistent storeA
    ∧ ((applyOps [Op.opUpdateTask "a" { status := some "done" } "t1"] storeA).tasks "a").map
        Task.status = some "done"
    ∧ (entryOf (applyOps [Op.opUpdateTask "a" { status := some "done" } "t1"]
        storeA).tasksByStatus "done").count "a" = 0
    ∧ (entryOf (applyOps [Op.opUpdateTask "a" { status := some "done" } "t1"]
        storeA).tasksByStatus "todo").count "a" = 1 :=
  ⟨consistent_storeA, by decide, by decide, by decide⟩

theorem deleteTask_lanes_eq (s : Store) (id : String) :
    (deleteTask id s).swimLanes = s.swimLanes := by
  cases ht : s.tasks id with
  | none => simp [deleteTask, ht]
  | some t => by_cases hst : t.status = "" <;> simp [deleteTask, ht, hst]

theorem moveTask_lanes_eq (s : Store) (taskId newStatus now : String) :
    (moveTask taskId newStatus now s).swimLanes = s.swimLanes := by
  cases ht : s.tasks taskId with
  | none => simp [moveTask, ht]
  | some t => by_cases heq : t.status = newStatus <;> simp [moveTask, ht, heq]

theorem lanesValid_addTask (s : Store) (td : TaskData) (id now : String)
    (hLV : LanesValid s) (hlane : ∃ lane ∈ s.swimLanes, lane.id = td.status) :
    LanesValid (addTask td id now s) := by
  intro x u hx
  rw [addTask_tasks_eq] at hx
  rw [addTask_lanes_eq]
  by_cases hxi : x = id
  · subst hxi
    rw [mapSet_same] at hx
    injection hx with hx
    subst hx
    exact hlane
  · rw [mapSet_ne _ _ _ _ hxi] at hx
    exact hLV x u hx

theorem lanesValid_updateTask (s : Store) (id : String) (p : TaskPatch) (now : String)
    (hLV : LanesValid s)
    (hok : ∀ t, s.tasks id = some t → p.status = none ∨ p.status = some t.status) :
    LanesValid (updateTask id p now s) := by
  intro x u hx
  rw [updateTask_lanes_eq]
  cases ht : s.tasks id with
  | none =>
    simp only [updateTask, ht] at hx
    exact hLV x u hx
  | some t =>
    rw [updateTask_tasks_some s id p now t ht] at hx
    have hst : (mergeTask t p now).status = t.status := by
      rcases hok t ht with h | h <;> simp [mergeTask, h]
    by_cases hxi : x = id
    · subst hxi
      rw [mapSet_same] at hx
      injection hx with hx
      subst hx
      rw [hst]
      exact hLV x t ht
    · rw [mapSet_ne _ _ _ _ hxi] at hx
      exact hLV x u hx

theorem lanesValid_deleteTask (s : Store) (id : String) (hLV : LanesValid s) :
    LanesValid (deleteTask id s) := by
  intro x u hx
  rw [deleteTask_lanes_eq]
  cases ht : s.tasks id with
  | none =>
    simp only [deleteTask, ht] at hx
    exact hLV x u hx
  | some t =>
    by_cases hst : t.status = ""
    · simp only [deleteTask, ht] at hx
      rw [if_pos hst] at hx
      exact hLV x u hx
    · rw [deleteTask_tasks_some s id t ht hst] at hx
      by_cases hxi : x = id
      · subst hxi
        rw [mapDel_same] at hx
        cases hx
      · rw [mapDel_ne _ _ _ hxi] at hx
        exact hLV x u hx

theorem lanesValid_moveTask (s : Store) (taskId newStatus now : String)
    (hLV : LanesValid s) (hlane : ∃ lane ∈ s.swimLanes, lane.id = newStatus) :
    LanesValid (moveTask taskId newStatus now s) := by
  intro x u hx
  rw [moveTask_lanes_eq]
  cases ht : s.tasks taskId with
  | none =>
    simp only [moveTask, ht] at hx
    exact hLV x u hx
  | some t =>
    by_cases heq : t.status = newStatus
    · simp only [moveTask, ht] at hx
      rw [if_pos heq] at hx
      exact hLV x u hx
    · rw [moveTask_tasks_some s taskId newStatus now t ht heq] at hx
      by_cases hxi : x = taskId
      · subst hxi
        rw [mapSet_same] at hx
        injection hx with hx
        subst hx
        exact hlane
      · rw [mapSet_ne _ _ _ _ hxi] at hx
        exact hLV x u hx

theorem lanesValid_reorderTasks (s : Store) (status : String) (newOrder : List String)
    (hLV : LanesValid s) : LanesValid (reorderTasks status newOrder s) := hLV

theorem lanesValid_addSwimLane (s : Store) (name id color : String) (hLV : LanesValid s) :
    LanesValid (addSwimLane name id color s) := by
  intro x u hx
  obtain ⟨lane, hm, hid⟩ := hLV x u hx
  exact ⟨lane, List.mem_append_left _ hm, hid⟩

theorem lanesValid_updateSwimLane (s : Store) (id : String) (p : LanePatch)
    (hLV : LanesValid s) (hpid : p.id = none) : LanesValid (updateSwimLane id p s) := by
  intro x u hx
  obtain ⟨lane, hm, hid⟩ := hLV x u hx
  refine ⟨if lane.id = id then mergeLane lane p else lane,
    List.mem_map_of_mem (fun l => if l.id = id then mergeLane l p else l) hm, ?_⟩
  by_cases hli : lane.id = id
  · rw [if_pos hli]
    show (mergeLane lane p).id = u.status
    rw [mergeLane]
    simp only [hpid, Option.getD_none]
    exact hid
  · rw [if_neg hli]
    exact hid

theorem lanesValid_deleteSwimLane (s : Store) (id now : String) (hC : Consistent s)
    (hLV : LanesValid s) : LanesValid (deleteSwimLane id now s) := by
  obtain ⟨h1, h2, h3⟩ := hC
  have hlanes := deleteSwimLane_lanes_eq s id now
  intro x u hx
  rw [hlanes]
  by_cases hl : entryOf s.tasksByStatus id = []
  · rw [deleteSwimLane_tasks_empty s id now hl] at hx
    have hus : u.status ≠ id := by
      intro heq
      have hmem := task_mem_entry s h1 x u hx
      rw [heq, hl] at hmem
      simp at hmem
    obtain ⟨lane, hm, hid⟩ := hLV x u hx
    exact ⟨lane, List.mem_filter.mpr ⟨hm, by simp [hid, hus]⟩, hid⟩
  · cases hf : s.swimLanes.filter (fun lane => lane.id ≠ id) with
    | nil =>
      rw [deleteSwimLane_tasks_last s id now hl hf x] at hx
      by_cases hxL : x ∈ entryOf s.tasksByStatus id
      · rw [if_pos hxL] at hx
        cases hx
      · rw [if_neg hxL] at hx
        exfalso
        have hus : u.status ≠ id := by
          intro heq
          refine hxL ?_
          have hmem := task_mem_entry s h1 x u hx
          rwa [heq] at hmem
        obtain ⟨lane, hm, hid⟩ := hLV x u hx
        have hmf : lane ∈ s.swimLanes.filter (fun lane => lane.id ≠ id) :=
          List.mem_filter.mpr ⟨hm, by simp [hid, hus]⟩
        rw [hf] at hmf
        simp at hmf
    | cons target rest =>
      rw [deleteSwimLane_tasks_reassign s id now target rest hl hf x] at hx
      by_cases hxL : x ∈ entryOf s.tasksByStatus id
      · rw [if_pos hxL] at hx
        rcases Option.map_eq_some'.mp hx with ⟨t, ht, hu⟩
        have hu2 : u = { t with status := target.id, updatedAt := now } := by
          rw [← hu]
          exact mergeTask_status_only t target.id now
        refine ⟨target, List.mem_cons_self _ _, ?_⟩
        rw [hu2]
      · rw [if_neg hxL] at hx
        have hus : u.status ≠ id := by
          intro heq
          refine hxL ?_
          have hmem := task_mem_entry s h1 x u hx
          rwa [heq] at hmem
        obtain ⟨lane, hm, hid⟩ := hLV x u hx
        have hmf : lane ∈ s.swimLanes.filter (fun lane => lane.id ≠ id) :=
          List.mem_filter.mpr ⟨hm, by simp [hid, hus]⟩
        rw [hf] at hmf
        exact ⟨lane, hmf, hid⟩

theorem laneMapOf_step_isSome (lanes : List SwimLane) (acc : String → Option SwimLane)
    (k : String) (h : (acc k).isSome) :
    ((lanes.foldl (fun a lane => fun x => if x = lane.id then some lane else a x) acc)
      k).isSome := by
  induction lanes generalizing acc with
  | nil => exact h
  | cons l ls ih =>
    rw [List.foldl_cons]
    apply ih
    show (if k = l.id then some l else acc k).isSome
    by_cases hk : k = l.id
    · rw [if_pos hk]
      rfl
    · rw [if_neg hk]
      exact h

theorem laneMapOf_id_of_some (lanes : List SwimLane) (acc : String → Option SwimLane)
    (k : String) (hacc : ∀ l', acc k = some l' → l'.id = k) :
    ∀ l', (lanes.foldl (fun a lane => fun x => if x = lane.id then some lane else a x) acc)
      k = some l' → l'.id = k := by
  induction lanes generalizing acc with
  | nil => exact hacc
  | cons l ls ih =>
    rw [List.foldl_cons]
    refine ih _ ?_
    intro l' hl'
    by_cases hk : k = l.id
    · rw [if_pos hk] at hl'
      injection hl' with hl'
      subst hl'
      exact hk.symm
    · rw [if_neg hk] at hl'
      exact hacc l' hl'

theorem laneMapOf_aux_isSome (lanes : List SwimLane) (lane : SwimLane)
    (acc : String → Option SwimLane) (hm : lane ∈ lanes) :
    ((lanes.foldl (fun a ln => fun x => if x = ln.id then some ln else a x) acc)
      lane.id).isSome := by
  induction lanes generalizing acc with
  | nil => cases hm
  | cons l ls ih =>
    rw [List.foldl_cons]
    rcases List.mem_cons.mp hm with heq | hmem
    · apply laneMapOf_step_isSome
      show (if lane.id = l.id then some l else acc lane.id).isSome
      rw [heq, if_pos rfl]
      rfl
    · exact ih _ hmem

theorem laneMapOf_exists (lanes : List SwimLane) (lane : SwimLane) (hm : lane ∈ lanes) :
    ∃ l', laneMapOf lanes lane.id = some l' ∧ l'.id = lane.id := by
  have hsome : (laneMapOf lanes lane.id).isSome :=
    laneMapOf_aux_isSome lanes lane (fun _ => none) hm
  obtain ⟨l', hl'⟩ := Option.isSome_iff_exists.mp hsome
  exact ⟨l', hl',
    laneMapOf_id_of_some lanes (fun _ => none) lane.id (fun l2 h => by cases h) l' hl'⟩

theorem lanesValid_reorderSwimLanes (s : Store) (newOrder : List String)
    (hLV : LanesValid s) (hfull : ∀ lane ∈ s.swimLanes, lane.id ∈ newOrder) :
    LanesValid (reorderSwimLanes newOrder s) := by
  intro x u hx
  obtain ⟨lane, hm, hid⟩ := hLV x u hx
  obtain ⟨l', hl', hlid⟩ := laneMapOf_exists s.swimLanes lane hm
  refine ⟨l', List.mem_filterMap.mpr ⟨lane.id, hfull lane hm, hl'⟩, ?_⟩
  rw [hlid]
  exact hid

theorem opOk_of_full (s : Store) (op : Op) (hok : OpOkFull s op) : OpOk s op := by
  cases op with
  | opAddTask td id now => exact hok.1
  | opUpdateTask id p now => exact hok
  | opDeleteTask id => exact True.intro
  | opMoveTask a b c => exact True.intro
  | opReorderTasks st no => exact hok
  | opAddSwimLane n i c => exact hok
  | opUpdateSwimLane i p => exact True.intro
  | opDeleteSwimLane i n2 => exact True.intro
  | opReorderSwimLanes no => exact True.intro

theorem lanesValid_applyOp (s : Store) (op : Op) (hC : Consistent s) (hLV : LanesValid s)
    (hok : OpOkFull s op) : LanesValid (applyOp op s) := by
  cases op with
  | opAddTask td id now => exact lanesValid_addTask s td id now hLV hok.2
  | opUpdateTask id p now => exact lanesValid_updateTask s id p now hLV hok
  | opDeleteTask id => exact lanesValid_deleteTask s id hLV
  | opMoveTask a b c => exact lanesValid_moveTask s a b c hLV hok
  | opReorderTasks st no => exact lanesValid_reorderTasks s st no hLV
  | opAddSwimLane n i c => exact lanesValid_addSwimLane s n i c hLV
  | opUpdateSwimLane i p => exact lanesValid_updateSwimLane s i p hLV hok
  | opDeleteSwimLane i n2 => exact lanesValid_deleteSwimLane s i n2 hC hLV
  | opReorderSwimLanes no => exact lanesValid_reorderSwimLanes s no hLV hok

/-- C5 amended: starting from a consistent state whose task statuses all name
existing lanes, every task's status keeps referencing a present lane after any
operation sequence, provided the statuses handed to `addTask` and `moveTask`
name existing lanes, `updateTask` patches neither the status (two-step
coupling) — nor does `updateSwimLane` rewrite a lane identifier — and
`reorderSwimLanes` keeps every current lane identifier (the `OpsOkFull` side
conditions); `deleteSwimLane` needs no proviso: it reassigns the contained
tasks to the first remaining lane or deletes them when none remains. -/
theorem lanesValid_preserved_by_ops (ops : List Op) (s : Store)
    (hC : Consistent s) (hLV : LanesValid s) (hok : OpsOkFull s ops) :
    LanesValid (applyOps ops s) := by
  induction ops generalizing s with
  | nil => exact hLV
  | cons op rest ih =>
    exact ih (applyOp op s)
      (consistent_applyOp s op hC (opOk_of_full s op hok.1))
      (lanesValid_applyOp s op hC hLV hok.1) hok.2

theorem lanesValid_storeA : LanesValid storeA := by
  intro x t hx
  simp only [storeA] at hx
  by_cases hxa : x = "a"
  · subst hxa
    rw [if_pos rfl] at hx
    injection hx with hx
    subst hx
    exact ⟨⟨"todo", "To-do", "blue"⟩, by decide, rfl⟩
  · rw [if_neg hxa] at hx
    cases hx

theorem freshTaskId_n1_storeA : FreshTaskId storeA "n1" := by
  refine ⟨rfl, ?_⟩
  intro k
  by_cases hk1 : k = "todo"
  · subst hk1
    decide
  · by_cases hk2 : k = "done"
    · subst hk2
      decide
    · simp [storeA, entryOf, hk1, hk2]

/-- Witness for C5's amended statement: a legal run (an add into lane
`"todo"`, a move to `"done"`, a lane deletion) keeps every status valid. -/
theorem lanesValid_preserved_by_ops_witness :
    LanesValid (applyOps [Op.opAddTask sampleTaskData "n1" "t1",
      Op.opMoveTask "n1" "done" "t2", Op.opDeleteSwimLane "todo" "t3"] storeA) :=
  lanesValid_preserved_by_ops
    [Op.opAddTask sampleTaskData "n1" "t1", Op.opMoveTask "n1" "done" "t2",
      Op.opDeleteSwimLane "todo" "t3"]
    storeA consistent_storeA lanesValid_storeA
    ⟨⟨freshTaskId_n1_storeA, ⟨"todo", "To-do", "blue"⟩, by decide, rfl⟩,
     ⟨⟨"done", "Done", "green"⟩, by decide, rfl⟩, True.intro, True.intro⟩

/-- C5 counterexample: from the consistent store `storeA` (whose statuses all
name lanes), a single `addTask` with status `"zzz"` — which the store accepts
unchecked — stores a task whose status references no lane in the lane list. -/
theorem lanesValid_counterexample :
    Consistent storeA ∧ LanesValid storeA
    ∧ ((applyOps [Op.opAddTask { sampleTaskData with status := "zzz" } "n1" "t1"]
        storeA).tasks "n1").map Task.status = some "zzz"
    ∧ (∀ lane ∈ (applyOps [Op.opAddTask { sampleTaskData with status := "zzz" } "n1" "t1"]
        storeA).swimLanes, lane.id ≠ "zzz") :=
  ⟨consistent_storeA, lanesValid_storeA, by decide, by decide⟩

end Kanban
